import Mathlib

/-!
Shallow embedding of the CHIP-8 interpreter in `src/src/main.rs` and proofs
about its instruction semantics.

Modelling conventions:
* `u8` / `u16` / `u32` machine integers are modelled as `Nat`; wrapping
  operations of the source (`wrapping_add`, `wrapping_sub`) are written with
  an explicit `% 256`.  Where the source uses plain `+` on machine integers,
  the operands reachable from the fetch loop stay far below the type bound,
  so plain `Nat` addition is faithful.
* The fixed-size arrays of the source (`ram : [u8; 4096]`,
  `display : Vec<u32>` of length 64*32, `vx : [u8; 16]`,
  `stack.mem : [u16; 16]`) are modelled as total maps `Nat → Nat` updated
  with `upd`.  The one indexing operation whose bounds a claim is about —
  the two fetch reads at `pc` and `pc + 1` — is modelled with its explicit
  bounds check (`fetch`), returning `none` exactly when the Rust indexing
  would panic.
* Rust panics that the source can actually reach (stack index out of
  bounds, `u8` subtraction overflow in `Stack::pop`, the `unwrap` of the
  always-`None` `match_key` in `wait_for_key`) are modelled as `none` of an
  `Option` result.
* The host window is abstracted by a key-state oracle `keyDown` and the
  list `pressed` of currently pressed keys; `rand::thread_rng` is abstracted
  by the sampled byte `rnd`, mirroring the narrow interface of the spec.
* `Timer.hour : SystemTime` is replaced by the elapsed duration since the
  last reset, passed as a rational-number parameter to `delay_countdown`
  (the `f32` comparison `elapsed.as_secs_f32() >= 1.0/60.0` is modelled
  over `ℚ`).
-/

def WIDTH : Nat := 64

def HEIGHT : Nat := 32

def PROGRAM_START : Nat := 0x200

/-- Pointwise update of a total map, modelling `a[k] = v` on an array. -/
def upd (f : Nat → Nat) (k v : Nat) : Nat → Nat :=
  fun j => if j = k then v else f j

theorem upd_same (f : Nat → Nat) (k v : Nat) : upd f k v k = v := by
  simp [upd]

theorem upd_other (f : Nat → Nat) (k v j : Nat) (h : j ≠ k) : upd f k v j = f j := by
  simp [upd, h]

/-- The four decoded nibbles of one instruction word (`struct Opcode`). -/
structure Opcode where
  d1 : Nat
  d2 : Nat
  d3 : Nat
  d4 : Nat

/-- `struct Cpu`: sixteen 8-bit registers, program counter, index register. -/
structure Cpu where
  vx : Nat → Nat
  pc : Nat
  i : Nat

/-- `struct Stack`: a 16-slot address array and a size counter. -/
structure Stack where
  mem : Nat → Nat
  size : Nat

/-- `struct Timer` minus the wall-clock field (see the module comment). -/
structure Timer where
  sound : Nat
  delay : Nat

/-- `struct Chip8` (the `keyboard` map is abstracted into the key oracle
passed to `runInstruction`). -/
structure Chip8 where
  cpu : Cpu
  ram : Nat → Nat
  display : Nat → Nat
  stack : Stack
  hour : Timer

/-- `vx[k] = v`. -/
def Cpu.setVx (c : Cpu) (k v : Nat) : Cpu :=
  { c with vx := upd c.vx k v }

/-- `Cpu::new`. -/
def Cpu.new : Cpu :=
  { vx := fun _ => 0, pc := PROGRAM_START, i := 0 }

/-- `Stack::new`. -/
def Stack.new : Stack :=
  { mem := fun _ => 0, size := 0 }

/-- `Timer::new` (timestamp dropped, see module comment). -/
def Timer.new : Timer :=
  { sound := 0, delay := 0 }

/-- `Chip8::new`: zeroed ram, all-off display, empty stack, fresh timers. -/
def Chip8.new : Chip8 :=
  { cpu := Cpu.new
    ram := fun _ => 0
    display := fun _ => 0
    stack := Stack.new
    hour := Timer.new }

/-- `Stack::add`: `self.mem[self.size as usize] = address; self.size += 1;`.
The indexing panics (out of bounds) exactly when `size ≥ 16`; the panic is
modelled as `none`. -/
def Stack.add (s : Stack) (address : Nat) : Option Stack :=
  if s.size < 16 then
    some { mem := upd s.mem s.size address, size := s.size + 1 }
  else
    none

/-- `Stack::pop`: `self.size -= 1; self.mem[(self.size + 1) as usize]`.
The `u8` subtraction overflows (panics) when `size = 0`, and the read of
`mem[size - 1 + 1]` panics (out of bounds) when `size - 1 + 1 ≥ 16`; both
panics are modelled as `none`.  Note the source reads slot `size - 1 + 1`,
one slot above the most recently pushed entry `mem[size - 1]`. -/
def Stack.pop (s : Stack) : Option (Nat × Stack) :=
  if s.size = 0 then
    none
  else
    let size2 := s.size - 1
    if size2 + 1 < 16 then
      some (s.mem (size2 + 1), { s with size := size2 })
    else
      none

/-- `Cpu::add_registers`: sets the flag to 1 when the unsigned sum exceeds
255 (and leaves it unchanged otherwise — the source has no `else` branch),
then stores the wrapping sum.  The operands of the final `wrapping_add` are
re-read after the flag write, exactly as in the source. -/
def Cpu.add_registers (c : Cpu) (va vb : Nat) : Cpu :=
  let c1 := if c.vx va + c.vx vb > 255 then c.setVx 0xF 1 else c
  c1.setVx va ((c1.vx va + c1.vx vb) % 256)

/-- `Cpu::substract_registers`: flag = 1 iff `vx[va] > vx[vb]`, else 0,
then `vx[va] = vx[va].wrapping_sub(vx[vb])`.  The third parameter of the
source is never used (the result is always stored to `va`). -/
def Cpu.substract_registers (c : Cpu) (va vb _store : Nat) : Cpu :=
  let c1 := if c.vx va > c.vx vb then c.setVx 0xF 1 else c.setVx 0xF 0
  c1.setVx va ((c1.vx va + 256 - c1.vx vb) % 256)

/-- `Cpu::half_register`: flag = least significant bit, then `vx[x] /= 2`. -/
def Cpu.half_register (c : Cpu) (x : Nat) : Cpu :=
  let c1 := if c.vx x &&& 1 = 1 then c.setVx 0xF 1 else c.setVx 0xF 0
  c1.setVx x (c1.vx x / 2)

/-- `Cpu::double_register`: flag = least significant bit (sic), and the
result of `wrapping_mul(2)` is discarded by the source (no assignment), so
`vx[x]` is unchanged. -/
def Cpu.double_register (c : Cpu) (x : Nat) : Cpu :=
  if c.vx x &&& 1 = 1 then c.setVx 0xF 1 else c.setVx 0xF 0

/-- `Timer::delay_countdown`, with the elapsed wall-clock duration (in
seconds) passed explicitly; both branches compare the same `elapsed` value,
as in the source. -/
def Timer.delay_countdown (t : Timer) (elapsed : ℚ) : Timer :=
  let t1 := if 0 < t.delay ∧ 1 / 60 ≤ elapsed then { t with delay := t.delay - 1 } else t
  if 0 < t1.sound ∧ 1 / 60 ≤ elapsed then { t1 with sound := t1.sound - 1 } else t1

/-- `Chip8::clear_display`: `for i in self.display.iter_mut() { *i = 0xFFFFFF; }`
— every pixel is written with `0xFFFFFF`. -/
def Chip8.clear_display (m : Chip8) : Chip8 :=
  { m with display := fun _ => 0xFFFFFF }

/-- `Chip8::call_subroutine`: pushes `address` (the panic of a full stack
propagates as `none`).  Note the source pushes the jump target it is given
and never modifies `pc`. -/
def Chip8.call_subroutine (m : Chip8) (address : Nat) : Option Chip8 :=
  (m.stack.add address).map fun s => { m with stack := s }

/-- `Chip8::random_number`: `vx[vx0] = number & kk as u8` with the sampled
byte `number` abstracted as the parameter `rnd` (reduced to a byte). -/
def Chip8.random_number (m : Chip8) (vx0 kk rnd : Nat) : Chip8 :=
  { m with cpu := m.cpu.setVx vx0 ((rnd % 256) &&& (kk % 256)) }

/-- The nested pixel loop of `Chip8::draw_sprite`: for each row `j < n` the
sprite byte is `ram (i + j)` (the source copies `ram[i..i+n]` into the
`sprites` vector first; `ram` is not written during the loop, so reading it
in place is equivalent), and for each `k < 5` (the source's inner loop runs
over `0..5`, not the 8 bits of the row) bit `7 - k` is tested; a set bit
XOR-toggles `display[yi * WIDTH + xi]` with `0xFFFFFF` and raises the flag
when the post-toggle pixel is 0.  The accumulator is the pair
(display, flag). -/
def drawLoop (ram : Nat → Nat) (i x y n : Nat) (acc : (Nat → Nat) × Nat) :
    (Nat → Nat) × Nat :=
  (List.range n).foldl
    (fun a j =>
      let row := ram (i + j)
      (List.range 5).foldl
        (fun a2 k =>
          if row >>> (7 - k) &&& 1 = 1 then
            let xi := (x + k) % WIDTH
            let yi := (y + j) % HEIGHT
            let d2 := upd a2.1 (yi * WIDTH + xi) (a2.1 (yi * WIDTH + xi) ^^^ 0xFFFFFF)
            (d2, if d2 (yi * WIDTH + xi) = 0 then 1 else a2.2)
          else
            a2)
        a)
    acc

/-- `Chip8::draw_sprite`.  The source reads `xcord = vx[x]` and
`ycord = vx[y]` but never uses them: the pixel coordinates are computed
from the register indices `x` and `y` themselves.  `vx[0xF]` is cleared
before the loop and raised on collision inside it; since the loop never
reads `vx`, this equals writing the final flag once after the loop. -/
def Chip8.draw_sprite (m : Chip8) (i : Nat) (x y : Nat) (n : Nat) : Chip8 :=
  let r := drawLoop m.ram i x y n (m.display, 0)
  { m with display := r.1, cpu := m.cpu.setVx 0xF r.2 }

/-- `Chip8::wait_for_key`: iterates the enumerated pressed-key list; for the
first entry with index `> 0` (i.e. whenever at least two keys are pressed)
it evaluates `self.match_key(..).unwrap()`, and `match_key` always returns
`None` (its `find_map` result is discarded), so that `unwrap` panics.
Otherwise the method returns without touching the state. -/
def Chip8.wait_for_key (m : Chip8) (pressed : List Nat) : Option Chip8 :=
  if 2 ≤ pressed.length then none else some m

/-- The two fetch reads `ram[pc]` and `ram[(pc + 1)]` of
`Chip8::run_instruction`.  The raw indexing panics out of the 4096-byte
array; `none` models the panic, with no masking applied to `pc`. -/
def fetch (m : Chip8) : Option (Nat × Nat) :=
  if m.cpu.pc < 4096 ∧ m.cpu.pc + 1 < 4096 then
    some (m.ram m.cpu.pc, m.ram (m.cpu.pc + 1))
  else
    none

/-- `Chip8::run_instruction`: fetch two bytes at `pc`, decode the four
nibbles, advance `pc` by 2, then dispatch.  Arms appear in source order;
the final wildcard is the `println!`-only arm for unknown opcodes.
`keyDown` abstracts `window.is_key_down(keyboard[d2])` (note the source
queries the key whose code is the register index `d2`, not `vx[d2]`),
`pressed` the `window.get_keys()` list, `rnd` the sampled random byte. -/
def runInstruction (keyDown : Nat → Bool) (pressed : List Nat) (rnd : Nat)
    (m : Chip8) : Option Chip8 :=
  match fetch m with
  | none => none
  | some (hb, lb) =>
    let op : Opcode := ⟨hb / 16, hb % 16, lb / 16, lb % 16⟩
    let m1 : Chip8 := { m with cpu := { m.cpu with pc := m.cpu.pc + 2 } }
    match op.d1, op.d2, op.d3, op.d4 with
    | 0, 0, 0xE, 0 => some m1.clear_display
    | 0, 0, 0xE, 0xE =>
      (m1.stack.pop).map fun r => { m1 with cpu := { m1.cpu with pc := r.1 }, stack := r.2 }
    | 0x1, d2, d3, d4 => some { m1 with cpu := { m1.cpu with pc := (d2 <<< 8) ||| (d3 <<< 4) ||| d4 } }
    | 0x2, d2, d3, d4 => m1.call_subroutine ((d2 <<< 8) ||| (d3 <<< 4) ||| d4)
    | 0x3, d2, d3, d4 =>
      let kk := (d3 <<< 4) ||| d4
      if m1.cpu.vx d2 = kk then some { m1 with cpu := { m1.cpu with pc := m1.cpu.pc + 2 } } else some m1
    | 0x4, d2, d3, d4 =>
      let kk := (d3 <<< 4) ||| d4
      if m1.cpu.vx d2 ≠ kk then some { m1 with cpu := { m1.cpu with pc := m1.cpu.pc + 2 } } else some m1
    | 0x5, d2, d3, 0 =>
      if m1.cpu.vx d2 = m1.cpu.vx d3 then some { m1 with cpu := { m1.cpu with pc := m1.cpu.pc + 2 } } else some m1
    | 0x6, d2, d3, d4 => some { m1 with cpu := m1.cpu.setVx d2 ((d3 <<< 4) ||| d4) }
    | 0x7, d2, d3, d4 => some { m1 with cpu := m1.cpu.setVx d2 ((m1.cpu.vx d2 + ((d3 <<< 4) ||| d4)) % 256) }
    | 0x8, d2, d3, 0 => some { m1 with cpu := m1.cpu.setVx d2 (m1.cpu.vx d3) }
    | 0x8, d2, d3, 0x1 => some { m1 with cpu := m1.cpu.setVx d2 (m1.cpu.vx d2 ||| m1.cpu.vx d3) }
    | 0x8, d2, d3, 0x2 => some { m1 with cpu := m1.cpu.setVx d2 (m1.cpu.vx d2 &&& m1.cpu.vx d3) }
    | 0x8, d2, d3, 0x3 => some { m1 with cpu := m1.cpu.setVx d2 (m1.cpu.vx d2 ^^^ m1.cpu.vx d3) }
    | 0x8, d2, d3, 0x4 => some { m1 with cpu := m1.cpu.add_registers d2 d3 }
    | 0x8, d2, d3, 0x5 => some { m1 with cpu := m1.cpu.substract_registers d2 d3 d2 }
    | 0x8, d2, _, 0x6 => some { m1 with cpu := m1.cpu.half_register d2 }
    | 0x8, d2, d3, 0x7 => some { m1 with cpu := m1.cpu.substract_registers d3 d2 d2 }
    | 0x8, d2, _, 0xE => some { m1 with cpu := m1.cpu.double_register d2 }
    | 0x9, d2, d3, 0 =>
      if m1.cpu.vx d2 ≠ m1.cpu.vx d3 then some { m1 with cpu := { m1.cpu with pc := m1.cpu.pc + 2 } } else some m1
    | 0xA, d2, d3, d4 => some { m1 with cpu := { m1.cpu with i := (d2 <<< 8) ||| (d3 <<< 4) ||| d4 } }
    | 0xB, d2, d3, d4 =>
      -- precedence as in the source: `(d2 << 8) | (d3 << 4) | (d4) + vx[0]`
      some { m1 with cpu := { m1.cpu with pc := (d2 <<< 8) ||| (d3 <<< 4) ||| (d4 + m1.cpu.vx 0) } }
    | 0xC, d2, d3, d4 => some (m1.random_number d2 ((d3 <<< 4) ||| d4) rnd)
    | 0xD, d2, d3, d4 => some (m1.draw_sprite m1.cpu.i d2 d3 d4)
    | 0xE, d2, 0x9, 0xE =>
      if keyDown d2 then some { m1 with cpu := { m1.cpu with pc := m1.cpu.pc + 2 } } else some m1
    | 0xE, d2, 0xA, 0x1 =>
      if ¬ keyDown d2 then some { m1 with cpu := { m1.cpu with pc := m1.cpu.pc + 2 } } else some m1
    | 0xF, d2, 0, 0x7 => some { m1 with cpu := m1.cpu.setVx d2 m1.hour.delay }
    | 0xF, _, 0, 0xA => m1.wait_for_key pressed
    | 0xF, d2, 0x1, 0x5 => some { m1 with hour := { m1.hour with delay := m1.cpu.vx d2 } }
    | 0xF, d2, 0x1, 0xE => some { m1 with cpu := { m1.cpu with i := m1.cpu.i + m1.cpu.vx d2 } }
    | 0xF, d2, 0x2, 0x9 => some { m1 with cpu := { m1.cpu with i := d2 * 5 } }
    | 0xF, d2, 0x3, 0x3 =>
      -- source: ram[i] = vx[d2] / 100; ram[i+1] = vx[d2] % 100 / 10;
      --         ram[i+1] = vx[d2] % 10;   (the third write reuses i + 1)
      let r1 := upd m1.ram m1.cpu.i (m1.cpu.vx d2 / 100)
      let r2 := upd r1 (m1.cpu.i + 1) (m1.cpu.vx d2 % 100 / 10)
      let r3 := upd r2 (m1.cpu.i + 1) (m1.cpu.vx d2 % 10)
      some { m1 with ram := r3 }
    | 0xF, d2, 0x5, 0x5 =>
      -- source: for k in 0..d2 { ram[(k + i)] = vx[k] }  (exclusive bound)
      some { m1 with ram := (List.range d2).foldl (fun r k => upd r (k + m1.cpu.i) (m1.cpu.vx k)) m1.ram }
    | 0xF, d2, 0x6, 0x5 =>
      -- source: for k in 0..d2 { vx[k] = ram[(k + i)] }  (exclusive bound)
      some { m1 with cpu := (List.range d2).foldl (fun c k => c.setVx k (m1.ram (k + m1.cpu.i))) m1.cpu }
    | _, _, _, _ => some m1

/-! ### Characterization of the draw loop -/

/-- One iteration of the (row, column) pixel loop of `drawLoop`, as a step
function over the flattened list of loop index pairs `(j, k)`. -/
def drawStep (ram : Nat → Nat) (i x y : Nat) (a2 : (Nat → Nat) × Nat)
    (p : Nat × Nat) : (Nat → Nat) × Nat :=
  if ram (i + p.1) >>> (7 - p.2) &&& 1 = 1 then
    let xi := (x + p.2) % WIDTH
    let yi := (y + p.1) % HEIGHT
    let d2 := upd a2.1 (yi * WIDTH + xi) (a2.1 (yi * WIDTH + xi) ^^^ 0xFFFFFF)
    (d2, if d2 (yi * WIDTH + xi) = 0 then 1 else a2.2)
  else
    a2

/-- The loop index pairs `(j, k)` of the nested draw loop, in loop order. -/
def pairs (n : Nat) : List (Nat × Nat) :=
  (List.range n).flatMap fun j => (List.range 5).map fun k => (j, k)

/-- Whether the sprite bit tested at loop index pair `p` is set. -/
def bitAt (ram : Nat → Nat) (i : Nat) (p : Nat × Nat) : Bool :=
  ram (i + p.1) >>> (7 - p.2) &&& 1 == 1

/-- The framebuffer cell toggled at loop index pair `p`. -/
def posOf (x y : Nat) (p : Nat × Nat) : Nat :=
  ((y + p.1) % HEIGHT) * WIDTH + (x + p.2) % WIDTH

/-- The framebuffer cells toggled by the loop index pairs of `L`. -/
def targetsOf (ram : Nat → Nat) (i x y : Nat) (L : List (Nat × Nat)) : List Nat :=
  (L.filter (bitAt ram i)).map (posOf x y)

/-- The framebuffer cells toggled by a whole `draw_sprite` call. -/
def targets (ram : Nat → Nat) (i x y n : Nat) : List Nat :=
  targetsOf ram i x y (pairs n)

theorem drawLoop_eq_foldl (ram : Nat → Nat) (i x y : Nat) :
    ∀ (n : Nat) (acc : (Nat → Nat) × Nat),
      drawLoop ram i x y n acc = (pairs n).foldl (drawStep ram i x y) acc := by
  intro n
  induction n with
  | zero => intro acc; rfl
  | succ n ih =>
    intro acc
    unfold drawLoop pairs
    rw [List.range_succ n, List.foldl_append, List.flatMap_append, List.foldl_append]
    unfold drawLoop at ih
    unfold pairs at ih
    rw [ih acc]
    simp only [List.foldl_cons, List.foldl_nil, List.flatMap_cons, List.flatMap_nil,
      List.append_nil]
    rw [List.foldl_map]
    rfl

theorem foldl_drawStep_char (ram : Nat → Nat) (i x y : Nat)
    (L : List (Nat × Nat)) :
    ∀ (d : Nat → Nat) (f : Nat), (targetsOf ram i x y L).Nodup →
      (∀ q, (L.foldl (drawStep ram i x y) (d, f)).1 q =
        if q ∈ targetsOf ram i x y L then d q ^^^ 0xFFFFFF else d q) ∧
      ((L.foldl (drawStep ram i x y) (d, f)).2 =
        if ∃ q ∈ targetsOf ram i x y L, d q = 0xFFFFFF then 1 else f) := by
  induction L with
  | nil =>
    intro d f _
    constructor
    · intro q; simp [targetsOf]
    · simp [targetsOf]
  | cons p L ih =>
    intro d f hnd
    by_cases hb : bitAt ram i p
    · have htg : targetsOf ram i x y (p :: L) = posOf x y p :: targetsOf ram i x y L := by
        simp [targetsOf, List.filter_cons, hb]
      rw [htg] at hnd ⊢
      obtain ⟨hqnot, hnd2⟩ := List.nodup_cons.mp hnd
      have hcond : ram (i + p.1) >>> (7 - p.2) &&& 1 = 1 := by
        simpa [bitAt] using hb
      have hds : drawStep ram i x y (d, f) p
          = (upd d (posOf x y p) (d (posOf x y p) ^^^ 0xFFFFFF),
             if d (posOf x y p) ^^^ 0xFFFFFF = 0 then 1 else f) := by
        simp only [drawStep, hcond, if_true, posOf, upd_same]
      have hstep : (p :: L).foldl (drawStep ram i x y) (d, f)
          = L.foldl (drawStep ram i x y)
              (upd d (posOf x y p) (d (posOf x y p) ^^^ 0xFFFFFF),
               if d (posOf x y p) ^^^ 0xFFFFFF = 0 then 1 else f) := by
        rw [List.foldl_cons, hds]
      obtain ⟨ih1, ih2⟩ := ih (upd d (posOf x y p) (d (posOf x y p) ^^^ 0xFFFFFF))
        (if d (posOf x y p) ^^^ 0xFFFFFF = 0 then 1 else f) hnd2
      constructor
      · intro q
        rw [hstep, ih1 q]
        by_cases hqL : q ∈ targetsOf ram i x y L
        · have hqq : q ≠ posOf x y p := fun h => hqnot (h ▸ hqL)
          simp [hqL, hqq, upd_other _ _ _ _ hqq, List.mem_cons]
        · by_cases hqq : q = posOf x y p
          · subst hqq
            simp [hqL, upd_same, List.mem_cons]
          · simp [hqL, hqq, upd_other _ _ _ _ hqq, List.mem_cons]
      · rw [hstep, ih2]
        have hiff : (∃ q ∈ targetsOf ram i x y L,
            upd d (posOf x y p) (d (posOf x y p) ^^^ 0xFFFFFF) q = 0xFFFFFF)
            ↔ (∃ q ∈ targetsOf ram i x y L, d q = 0xFFFFFF) := by
          constructor
          · rintro ⟨q, hq, hv⟩
            have hne : q ≠ posOf x y p := by
              intro h; subst h; exact hqnot hq
            refine ⟨q, hq, ?_⟩
            rwa [upd_other _ _ _ _ hne] at hv
          · rintro ⟨q, hq, hv⟩
            have hne : q ≠ posOf x y p := by
              intro h; subst h; exact hqnot hq
            refine ⟨q, hq, ?_⟩
            rwa [upd_other _ _ _ _ hne]
        rw [if_congr hiff rfl rfl]
        have hzero : (d (posOf x y p) ^^^ 0xFFFFFF = 0) ↔ d (posOf x y p) = 0xFFFFFF :=
          Nat.xor_eq_zero
        by_cases hex : ∃ q ∈ targetsOf ram i x y L, d q = 0xFFFFFF
        · simp only [if_pos hex]
          have : ∃ q ∈ posOf x y p :: targetsOf ram i x y L, d q = 0xFFFFFF := by
            obtain ⟨q, hq, hv⟩ := hex
            exact ⟨q, List.mem_cons_of_mem _ hq, hv⟩
          rw [if_pos this]
        · simp only [if_neg hex]
          by_cases hp0 : d (posOf x y p) = 0xFFFFFF
          · rw [if_pos (hzero.mpr hp0),
              if_pos ⟨posOf x y p, List.mem_cons_self _ _, hp0⟩]
          · rw [if_neg (fun h => hp0 (hzero.mp h))]
            have : ¬ ∃ q ∈ posOf x y p :: targetsOf ram i x y L, d q = 0xFFFFFF := by
              rintro ⟨q, hq, hv⟩
              rcases List.mem_cons.mp hq with h | h
              · exact hp0 (h ▸ hv)
              · exact hex ⟨q, h, hv⟩
            rw [if_neg this]
    · have htg : targetsOf ram i x y (p :: L) = targetsOf ram i x y L := by
        simp [targetsOf, List.filter_cons, hb]
      rw [htg] at hnd ⊢
      have hcond : ¬ (ram (i + p.1) >>> (7 - p.2) &&& 1 = 1) := by
        simpa [bitAt] using hb
      have hds : drawStep ram i x y (d, f) p = (d, f) := by
        simp only [drawStep, hcond, if_false]
      rw [List.foldl_cons, hds]
      exact ih d f hnd

theorem mem_pairs (n : Nat) (p : Nat × Nat) : p ∈ pairs n ↔ p.1 < n ∧ p.2 < 5 := by
  cases p with
  | mk j k =>
    simp only [pairs, List.mem_flatMap, List.mem_map, List.mem_range, Prod.mk.injEq]
    constructor
    · rintro ⟨j2, hj2, k2, hk2, rfl, rfl⟩
      exact ⟨hj2, hk2⟩
    · rintro ⟨hj, hk⟩
      exact ⟨j, hj, k, hk, rfl, rfl⟩

theorem pairs_nodup (n : Nat) : (pairs n).Nodup := by
  unfold pairs
  rw [List.nodup_flatMap]
  constructor
  · intro j _
    have hinj : Function.Injective (fun k => ((j, k) : Nat × Nat)) := by
      intro a b h
      simpa using congrArg Prod.snd h
    exact List.Nodup.map hinj (List.nodup_range 5)
  · have hdisj : ∀ j1 j2 : Nat, j1 ≠ j2 →
        List.Disjoint ((List.range 5).map fun k => (j1, k))
          ((List.range 5).map fun k => (j2, k)) := by
      intro j1 j2 hne a ha1 ha2
      simp only [List.mem_map, List.mem_range] at ha1 ha2
      obtain ⟨k1, _, rfl⟩ := ha1
      obtain ⟨k2, _, hk⟩ := ha2
      have hj : j2 = j1 := by simpa using congrArg Prod.fst hk
      exact hne hj.symm
    exact (List.pairwise_lt_range n).imp fun h => hdisj _ _ (Nat.ne_of_lt h)

theorem posOf_injOn (x y n : Nat) (hx : x < 16) (hy : y < 16) (hn : n ≤ 15) :
    ∀ p ∈ pairs n, ∀ p2 ∈ pairs n, posOf x y p = posOf x y p2 → p = p2 := by
  intro p hp p2 hp2 heq
  rw [mem_pairs] at hp hp2
  unfold posOf WIDTH HEIGHT at heq
  rw [Nat.mod_eq_of_lt (by omega), Nat.mod_eq_of_lt (by omega),
    Nat.mod_eq_of_lt (by omega), Nat.mod_eq_of_lt (by omega)] at heq
  have h1 : p.1 = p2.1 ∧ p.2 = p2.2 := by omega
  calc p = (p.1, p.2) := rfl
    _ = (p2.1, p2.2) := by rw [h1.1, h1.2]
    _ = p2 := rfl

theorem targets_nodup (ram : Nat → Nat) (i x y n : Nat)
    (hx : x < 16) (hy : y < 16) (hn : n ≤ 15) :
    (targets ram i x y n).Nodup := by
  unfold targets targetsOf
  apply List.Nodup.map_on
  · intro a ha b hb
    exact posOf_injOn x y n hx hy hn a (List.mem_of_mem_filter ha)
      b (List.mem_of_mem_filter hb)
  · exact (pairs_nodup n).filter _

theorem xor_xor_self (a b : Nat) : a ^^^ b ^^^ b = a := by
  rw [Nat.xor_assoc, Nat.xor_self, Nat.xor_zero]

theorem xor_eq_self_iff (a b : Nat) : a ^^^ b = b ↔ a = 0 := by
  constructor
  · intro h
    have h2 := congrArg (fun z => z ^^^ b) h
    simpa [Nat.xor_assoc, Nat.xor_self, Nat.xor_zero] using h2
  · rintro rfl
    exact Nat.zero_xor b

theorem draw_sprite_ram (m : Chip8) (i x y n : Nat) :
    (m.draw_sprite i x y n).ram = m.ram := rfl

theorem draw_sprite_display (m : Chip8) (i x y n : Nat)
    (hx : x < 16) (hy : y < 16) (hn : n ≤ 15) (q : Nat) :
    (m.draw_sprite i x y n).display q =
      if q ∈ targets m.ram i x y n then m.display q ^^^ 0xFFFFFF else m.display q := by
  show (drawLoop m.ram i x y n (m.display, 0)).1 q = _
  rw [drawLoop_eq_foldl]
  exact (foldl_drawStep_char m.ram i x y (pairs n) m.display 0
    (targets_nodup m.ram i x y n hx hy hn)).1 q

theorem draw_sprite_flag (m : Chip8) (i x y n : Nat)
    (hx : x < 16) (hy : y < 16) (hn : n ≤ 15) :
    (m.draw_sprite i x y n).cpu.vx 0xF =
      if ∃ q ∈ targets m.ram i x y n, m.display q = 0xFFFFFF then 1 else 0 := by
  show upd m.cpu.vx 0xF (drawLoop m.ram i x y n (m.display, 0)).2 0xF = _
  rw [upd_same, drawLoop_eq_foldl]
  exact (foldl_drawStep_char m.ram i x y (pairs n) m.display 0
    (targets_nodup m.ram i x y n hx hy hn)).2

/-! ### Concrete machines used by the claim theorems -/

def noKeys : Nat → Bool := fun _ => false

/-- Machine poised to execute `D231` with `vx[2] = 20`, `vx[3] = 5`,
`i = 0x300`, sprite byte `ram[0x300] = 0xFF`. -/
def drawDemo : Chip8 :=
  { Chip8.new with
    cpu := { Cpu.new with vx := upd (upd (fun _ => 0) 2 20) 3 5, i := 0x300 }
    ram := upd (upd (upd (fun _ => 0) 0x200 0xD2) 0x201 0x31) 0x300 0xFF }

/-- Machine poised to execute `8124` with `vx[1] = 1`, `vx[2] = 2` and a
stale flag `vx[0xF] = 1`. -/
def addDemo : Chip8 :=
  { Chip8.new with
    cpu := { Cpu.new with vx := upd (upd (upd (fun _ => 0) 1 1) 2 2) 0xF 1 }
    ram := upd (upd (fun _ => 0) 0x200 0x81) 0x201 0x24 }

/-- Fresh machine whose ROM is `2300` at 0x200 followed by `00EE` at 0x202. -/
def callDemo : Chip8 :=
  { Chip8.new with
    ram := upd (upd (upd (upd (fun _ => 0) 0x200 0x23) 0x201 0x00) 0x202 0x00) 0x203 0xEE }

/-- Machine poised to execute `00E0` with pixel 100 on and pixel 0 off. -/
def clearDemo : Chip8 :=
  { Chip8.new with
    display := upd (fun _ => 0) 100 0xFFFFFF
    ram := upd (fun _ => 0) 0x201 0xE0 }

/-- Machine poised to execute `F133` with `vx[1] = 123` and `i = 0x300`. -/
def bcdDemo : Chip8 :=
  { Chip8.new with
    cpu := { Cpu.new with vx := upd (fun _ => 0) 1 123, i := 0x300 }
    ram := upd (upd (fun _ => 0) 0x200 0xF1) 0x201 0x33 }

/-- Machine poised to execute `F155` with `vx[0] = 7`, `vx[1] = 9`,
`i = 0x300`. -/
def storeDemo : Chip8 :=
  { Chip8.new with
    cpu := { Cpu.new with vx := upd (upd (fun _ => 0) 0 7) 1 9, i := 0x300 }
    ram := upd (upd (fun _ => 0) 0x200 0xF1) 0x201 0x55 }

/-- Machine poised to execute `F165` with `ram[0x300] = 7`, `ram[0x301] = 9`,
`i = 0x300`. -/
def loadDemo : Chip8 :=
  { Chip8.new with
    cpu := { Cpu.new with i := 0x300 }
    ram := upd (upd (upd (upd (fun _ => 0) 0x200 0xF1) 0x201 0x65) 0x300 7) 0x301 9 }

/-- All-off display with the single sprite byte `0x80` at 0x300; drawing it
twice at (0, 0) exercises the draw-twice round trip. -/
def c9demo : Chip8 := { Chip8.new with ram := upd (fun _ => 0) 0x300 0x80 }

/-- Fresh machine with `pc = 4094`, the last fetchable address. -/
def pcEdgeDemo : Chip8 := { Chip8.new with cpu := { Cpu.new with pc := 4094 } }

/-- Machine poised to execute `F01E` with `vx[0] = 255` and `i = 4000`. -/
def addIdemo : Chip8 :=
  { Chip8.new with
    cpu := { Cpu.new with vx := upd (fun _ => 0) 0 255, i := 4000 }
    ram := upd (upd (fun _ => 0) 0x200 0xF0) 0x201 0x1E }

/-! ### Claims -/

/-- C1: executing `D231` with `vx[2] = 20`, `vx[3] = 5` and sprite byte
`0xFF`: the code toggles pixel (2, 3) — the register indices used as
coordinates — and pixel (6, 3) (fifth sprite column), but neither the
sixth column (7, 3) nor the claimed start location (20, 5).  The sprite is
not drawn at (vx[x], vx[y]), and only 5 of the 8 bit columns are
processed, contradicting the claim (the claim requires pixel (20, 5) to be
toggled on and pixel (2, 3) untouched). -/
theorem C1_draw_uses_register_indices :
    Option.map (fun m => (m.display (3 * 64 + 2), m.display (3 * 64 + 6),
        m.display (3 * 64 + 7), m.display (5 * 64 + 20)))
      (runInstruction noKeys [] 0 drawDemo) = some (0xFFFFFF, 0xFFFFFF, 0, 0) ∧
    (0xFFFFFF : Nat) ≠ 0 :=
  ⟨rfl, by decide⟩

/-- C2: executing `8124` with `vx[1] = 1`, `vx[2] = 2` and a stale flag
`vx[0xF] = 1`: the sum 3 does not exceed 255 yet the flag keeps the stale
value 1 — the source has no `else` branch clearing it — while the claim
requires 0. -/
theorem C2_flag_not_cleared :
    Option.map (fun m => (m.cpu.vx 1, m.cpu.vx 0xF)) (runInstruction noKeys [] 0 addDemo)
      = some (3, 1) ∧ (1 : Nat) ≠ 0 :=
  ⟨rfl, by decide⟩

/-- C3: from a fresh machine (empty stack) at pc = 0x200, `2300` followed
immediately by `00EE` leaves pc = 0, not the 0x202 the claim requires: the
call pushes the jump target 0x300 instead of the return address and never
sets pc to nnn, and the return pops `mem[size]`, one slot above the entry
just pushed. -/
theorem C3_call_return_breaks :
    Option.map (fun m => m.cpu.pc)
      ((runInstruction noKeys [] 0 callDemo).bind (runInstruction noKeys [] 0))
      = some 0 ∧ (0 : Nat) ≠ 0x202 :=
  ⟨rfl, by decide⟩

/-- C4: executing `00E0`: every pixel is written with 0xFFFFFF (on), not
with 0 as the claim requires; shown for an arbitrary pixel index `q` of a
framebuffer that had pixel 100 on and the rest off. -/
theorem C4_clear_sets_pixels_on :
    (∀ q, Option.map (fun m => m.display q) (runInstruction noKeys [] 0 clearDemo)
      = some 0xFFFFFF) ∧ (0xFFFFFF : Nat) ≠ 0 :=
  ⟨fun _ => rfl, by decide⟩

/-- C5: a push onto a full (size 16) stack writes `mem[16]` — a Rust
index-out-of-bounds panic — and a pop from an empty stack evaluates
`0u8 - 1` — a subtraction-overflow panic; both are modelled as `none`.
Neither is surfaced as a defined error condition as the claim requires:
the process aborts. -/
theorem C5_stack_overflow_underflow_panic :
    Stack.add { mem := fun _ => 0, size := 16 } 0x300 = none ∧
    Stack.pop { mem := fun _ => 0, size := 0 } = none :=
  ⟨rfl, rfl⟩

/-- C6 (counterexample): with delay = 5 and elapsed time 2 × (1/60)
seconds, one tick call leaves delay = 4: it decreases by 1, not by the
N = 2 the claim requires. -/
theorem C6_counterexample :
    (Timer.delay_countdown { sound := 0, delay := 5 } (2 * (1 / 60))).delay = 4 ∧
    (4 : Nat) ≠ 5 - 2 := by
  constructor
  · simp only [Timer.delay_countdown]
    norm_num
  · decide

/-- C6 (amended): one tick call decreases a nonzero delay timer by exactly
1 when the elapsed time is at least 1/60 s — regardless of how many whole
1/60 s intervals elapsed — leaves it unchanged when less than 1/60 s
elapsed, and never decrements a timer whose value is 0. -/
theorem C6_amended_thm (t : Timer) (e : ℚ) :
    (t.delay_countdown e).delay =
      if 0 < t.delay ∧ 1 / 60 ≤ e then t.delay - 1 else t.delay := by
  simp only [Timer.delay_countdown]
  split <;> split <;> rfl

/-- C7: executing `F133` with `vx[1] = 123` and `i = 0x300`: memory gets
the hundreds digit 1 at `i`, the units digit 3 at `i + 1` (the source
writes index `i + 1` twice, so the tens digit is overwritten), and
`i + 2` is untouched (still 0); the claim requires (1, 2, 3). -/
theorem C7_bcd_writes_wrong_cell :
    Option.map (fun m => (m.ram 0x300, m.ram 0x301, m.ram 0x302))
      (runInstruction noKeys [] 0 bcdDemo) = some (1, 3, 0) ∧
    ((3 : Nat), (0 : Nat)) ≠ ((2 : Nat), (3 : Nat)) :=
  ⟨rfl, by decide⟩

/-- C8: executing `F155` with x = 1, `vx[0] = 7`, `vx[1] = 9` stores only
`vx[0]` (`ram[i + 1]` stays 0; the claim requires 9 there), and executing
`F165` with x = 1, `ram[i] = 7`, `ram[i + 1] = 9` loads only `vx[0]`
(`vx[1]` stays 0; the claim requires 9): both loops run over `0..x`
exclusive, so register x itself is not transferred. -/
theorem C8_transfer_excludes_x :
    (Option.map (fun m => (m.ram 0x300, m.ram 0x301)) (runInstruction noKeys [] 0 storeDemo)
        = some (7, 0) ∧
      Option.map (fun m => (m.cpu.vx 0, m.cpu.vx 1)) (runInstruction noKeys [] 0 loadDemo)
        = some (7, 0)) ∧
    (0 : Nat) ≠ 9 :=
  ⟨⟨rfl, rfl⟩, by decide⟩

/-- C9 (counterexample): drawing the single-byte sprite `0x80` at (0, 0)
twice on an all-off framebuffer: the first draw turns the pixel on, the
second turns it back off — an on-to-off toggle — so `vx[0xF] = 1` after
the second call, not the 0 the claim requires. -/
theorem C9_counterexample :
    ((c9demo.draw_sprite 0x300 0 0 1).draw_sprite 0x300 0 0 1).cpu.vx 0xF = 1 ∧
    (1 : Nat) ≠ 0 :=
  ⟨rfl, by decide⟩

/-- C9 (amended): drawing the identical sprite at the identical location
twice restores every pixel to its pre-draw state, and after the second
call `vx[0xF]` is 1 if at least one pixel toggled by the sprite was off
before the first draw, and 0 otherwise — not unconditionally 0.  The
bounds hold for every call reachable from the dispatcher: x, y, n are
opcode nibbles. -/
theorem C9_amended_thm (m : Chip8) (i x y n : Nat)
    (hx : x < 16) (hy : y < 16) (hn : n ≤ 15) :
    (∀ q, ((m.draw_sprite i x y n).draw_sprite i x y n).display q = m.display q) ∧
    ((m.draw_sprite i x y n).draw_sprite i x y n).cpu.vx 0xF =
      (if ∃ q ∈ targets m.ram i x y n, m.display q = 0 then 1 else 0) := by
  have hram : (m.draw_sprite i x y n).ram = m.ram := rfl
  have hd1 : ∀ q, (m.draw_sprite i x y n).display q =
      if q ∈ targets m.ram i x y n then m.display q ^^^ 0xFFFFFF else m.display q :=
    draw_sprite_display m i x y n hx hy hn
  constructor
  · intro q
    have h2 := draw_sprite_display (m.draw_sprite i x y n) i x y n hx hy hn q
    rw [hram] at h2
    rw [h2, hd1 q]
    by_cases hq : q ∈ targets m.ram i x y n
    · rw [if_pos hq, if_pos hq, xor_xor_self]
    · rw [if_neg hq, if_neg hq]
  · have h2 := draw_sprite_flag (m.draw_sprite i x y n) i x y n hx hy hn
    rw [hram] at h2
    rw [h2]
    have hiff : (∃ q ∈ targets m.ram i x y n, (m.draw_sprite i x y n).display q = 0xFFFFFF)
        ↔ (∃ q ∈ targets m.ram i x y n, m.display q = 0) := by
      constructor
      · rintro ⟨q, hq, hv⟩
        rw [hd1 q, if_pos hq] at hv
        exact ⟨q, hq, (xor_eq_self_iff _ _).mp hv⟩
      · rintro ⟨q, hq, hv⟩
        refine ⟨q, hq, ?_⟩
        rw [hd1 q, if_pos hq, hv, Nat.zero_xor]
    rw [if_congr hiff rfl rfl]

/-- C9 witness: the amended statement instantiated at the machine of the
counterexample (sprite byte 0x80 drawn twice at (0, 0)). -/
theorem C9_amended_witness :
    (∀ q, ((c9demo.draw_sprite 0x300 0 0 1).draw_sprite 0x300 0 0 1).display q
        = c9demo.display q) ∧
    ((c9demo.draw_sprite 0x300 0 0 1).draw_sprite 0x300 0 0 1).cpu.vx 0xF =
      (if ∃ q ∈ targets c9demo.ram 0x300 0 0 1, c9demo.display q = 0 then 1 else 0) :=
  C9_amended_thm c9demo 0x300 0 0 1 (by decide) (by decide) (by decide)

/-- C10: the fetch of a cycle reads `ram[pc]` and `ram[pc + 1]` with no
masking; both reads are in bounds exactly when `pc ≤ 4094`.  No
instruction re-establishes this precondition: from `pc = 4094` the plain
`pc += 2` advance of the fetched (unknown) instruction leaves
`pc = 4096 > 4095`, and `F01E` with `vx[0] = 255`, `i = 4000` leaves
`i = 4255 > 4095` — neither value is masked into [0, 4095]. -/
theorem C10_fetch_bounds :
    (∀ m : Chip8, (fetch m).isSome ↔ m.cpu.pc ≤ 4094) ∧
    (∃ m2, runInstruction noKeys [] 0 pcEdgeDemo = some m2 ∧
      pcEdgeDemo.cpu.pc ≤ 4094 ∧ 4095 < m2.cpu.pc) ∧
    (∃ m2, runInstruction noKeys [] 0 addIdemo = some m2 ∧
      addIdemo.cpu.i ≤ 4095 ∧ 4095 < m2.cpu.i) := by
  refine ⟨?_, ?_, ?_⟩
  · intro m
    by_cases h : m.cpu.pc < 4096 ∧ m.cpu.pc + 1 < 4096 <;> simp [fetch, h] <;> omega
  · exact ⟨{ pcEdgeDemo with cpu := { pcEdgeDemo.cpu with pc := 4096 } }, rfl,
      by decide, by decide⟩
  · exact ⟨{ addIdemo with cpu := { addIdemo.cpu with pc := 0x202, i := 4255 } }, rfl,
      by decide, by decide⟩
